import Mathlib

/-!
Verification of the course-search cache and relevance-ranking layer.

This development is a shallow embedding of three source units:

* `src/utils/cache.py` — the `MemoryCache` LRU/TTL store, its key builder
  `_generate_key`, and the `cached_course_search` decorator (the orchestrator);
* `src/database/services.py` — the course-search query functions
  (`search_courses_summary`, `search_courses_summary_optimized`,
  `search_courses_summary_by_faculty`,
  `search_courses_summary_by_faculty_optimized`);
* `src/api/endpoints.py` — the dropdown search endpoints that dispatch
  between the cached and the faculty-filtered search paths.

Modelling conventions:

* Python wall-clock time (`time.time()`) is an explicit integer parameter
  `now`; timestamps are `Int`.
* The `OrderedDict` backing the cache is a `List (String × Payload × Int)`:
  front = oldest position, back = most recent position.  `popitem(last=False)`
  pops the front; `move_to_end` moves an entry to the back; plain dict
  assignment on an existing key keeps its position (Python semantics).
* A Python `KeyError` (raised by `popitem` on an empty dict) is modelled by
  `Option`: `none` is an uncaught cache-internal exception.
* SQL semantics: `ilike` is modelled as case-insensitive (ASCII fold, the
  same fold SQLite's `LIKE` applies) prefix/substring matching; string
  comparison in `ORDER BY` is binary (codepoint) collation; `LIMIT` applies
  after `ORDER BY`; the `ORDER BY` sequence is modelled with an insertion
  sort, a correct sorted permutation.
* The MD5 hex digest applied by `_generate_key` to the serialized key tuple
  is not reproduced; `generate_key` returns the serialized JSON string the
  source feeds into `hashlib.md5`.  The digest is a function of that string
  (equal strings give equal keys) and is treated as injective, which is the
  spec's own collision-freedom idealization of the hash.
-/

/-! ### ASCII case folding and Python string helpers -/

/-- ASCII lower-casing of one character, the fold Python's `str.lower` and
SQLite's `LIKE` apply to ASCII letters (queries and course codes are ASCII). -/
def asciiLower (c : Char) : Char :=
  if 65 ≤ c.toNat ∧ c.toNat ≤ 90 then Char.ofNat (c.toNat + 32) else c

/-- ASCII upper-casing of one character, modelling Python's `str.upper`. -/
def asciiUpper (c : Char) : Char :=
  if 97 ≤ c.toNat ∧ c.toNat ≤ 122 then Char.ofNat (c.toNat - 32) else c

/-- Models Python `str.lower()`. -/
def pyLower (s : String) : String := ⟨s.data.map asciiLower⟩

/-- Models Python `str.upper()`. -/
def pyUpper (s : String) : String := ⟨s.data.map asciiUpper⟩

/-- Whitespace recognized by Python's `str.strip()` (ASCII whitespace). -/
def isPySpace (c : Char) : Bool :=
  c = ' ' || c = '\t' || c = '\n' || c = '\r' || c = '\x0b' || c = '\x0c'

/-- Trim leading and trailing whitespace from a character list. -/
def stripChars (l : List Char) : List Char :=
  ((l.dropWhile isPySpace).reverse.dropWhile isPySpace).reverse

/-- Models Python `str.strip()`. -/
def pyStrip (s : String) : String := ⟨stripChars s.data⟩

/-- Strict codepoint-lexicographic order on character lists: the order SQL
binary collation gives `ORDER BY` on text columns. -/
def charsLt : List Char → List Char → Bool
  | [], [] => false
  | [], _ :: _ => true
  | _ :: _, [] => false
  | a :: as, b :: bs =>
    decide (a.toNat < b.toNat) || (decide (a.toNat = b.toNat) && charsLt as bs)

/-- Binary-collation string comparison used to model SQL `ORDER BY`. -/
def strLt (s t : String) : Bool := charsLt s.data t.data

/-- `pat` is a prefix of `s` (on raw character lists). -/
def startsWithChars : List Char → List Char → Bool
  | [], _ => true
  | _ :: _, [] => false
  | p :: ps, c :: cs => decide (p = c) && startsWithChars ps cs

/-- `pat` occurs as a contiguous substring of `s`. -/
def hasSubChars (pat : List Char) : List Char → Bool
  | [] => startsWithChars pat []
  | c :: cs => startsWithChars pat (c :: cs) || hasSubChars pat cs

/-- Models SQL `col ILIKE pat || '%'` (SQLAlchemy lowers both sides). -/
def likeStarts (pat s : String) : Bool :=
  startsWithChars (pyLower pat).data (pyLower s).data

/-- Models SQL `col ILIKE '%' || pat || '%'` (case-insensitive substring). -/
def likeHas (pat s : String) : Bool :=
  hasSubChars (pyLower pat).data (pyLower s).data

/-! ### Decimal printing (how `json.dumps` serializes Python ints) -/

/-- The decimal digit characters. -/
def digitChar (n : Nat) : Char :=
  match n with
  | 0 => '0' | 1 => '1' | 2 => '2' | 3 => '3' | 4 => '4'
  | 5 => '5' | 6 => '6' | 7 => '7' | 8 => '8' | 9 => '9'
  | _ => '0'

/-- Fuel-indexed decimal rendering of a natural number (most significant
digit first); `fuel` bounds the number of digits. -/
def natChars : Nat → Nat → List Char
  | 0, _ => []
  | fuel + 1, n =>
    if n < 10 then [digitChar n] else natChars fuel (n / 10) ++ [digitChar (n % 10)]

/-- Decimal rendering of a natural number, as `json.dumps` prints it. -/
def natStr (n : Nat) : List Char := natChars (n + 1) n

/-- Decimal rendering of a Python int, as `json.dumps` prints it. -/
def intStr : Int → List Char
  | Int.ofNat n => natStr n
  | Int.negSucc m => '-' :: natStr (m + 1)

/-- Numeric value of one decimal digit character. -/
def digitVal (c : Char) : Nat :=
  match c with
  | '0' => 0 | '1' => 1 | '2' => 2 | '3' => 3 | '4' => 4
  | '5' => 5 | '6' => 6 | '7' => 7 | '8' => 8 | '9' => 9
  | _ => 0

/-- Value of a decimal digit string (left inverse of `natStr`). -/
def charsVal (l : List Char) : Nat :=
  l.foldl (fun a c => a * 10 + digitVal c) 0

/-- Digit test used for framing facts about serialized numbers. -/
def isDigitCh (c : Char) : Bool :=
  c = '0' || c = '1' || c = '2' || c = '3' || c = '4' ||
  c = '5' || c = '6' || c = '7' || c = '8' || c = '9'

/-! ### JSON string escaping (`json.dumps` with its default `ensure_ascii`) -/

/-- The lowercase hexadecimal digit characters. -/
def hexDigitChar (n : Nat) : Char :=
  match n with
  | 0 => '0' | 1 => '1' | 2 => '2' | 3 => '3' | 4 => '4'
  | 5 => '5' | 6 => '6' | 7 => '7' | 8 => '8' | 9 => '9'
  | 10 => 'a' | 11 => 'b' | 12 => 'c' | 13 => 'd' | 14 => 'e' | 15 => 'f'
  | _ => '0'

/-- Numeric value of a hexadecimal digit character. -/
def hexVal (c : Char) : Nat :=
  match c with
  | '0' => 0 | '1' => 1 | '2' => 2 | '3' => 3 | '4' => 4
  | '5' => 5 | '6' => 6 | '7' => 7 | '8' => 8 | '9' => 9
  | 'a' => 10 | 'b' => 11 | 'c' => 12 | 'd' => 13 | 'e' => 14 | 'f' => 15
  | _ => 0

/-- Four-digit `%04x` rendering used by `\uXXXX` escapes. -/
def hex4 (n : Nat) : List Char :=
  [hexDigitChar (n / 4096 % 16), hexDigitChar (n / 256 % 16),
   hexDigitChar (n / 16 % 16), hexDigitChar (n % 16)]

/-- `json.dumps` escaping of a single character: `"` and `\` get a backslash,
the named control escapes are used for `\n \r \t \b \f`, every other
character outside printable ASCII is `\uXXXX`-escaped (`ensure_ascii=True`),
with surrogate pairs above the BMP. -/
def escChar (c : Char) : List Char :=
  if c = '"' then ['\\', '"']
  else if c = '\\' then ['\\', '\\']
  else if c = '\n' then ['\\', 'n']
  else if c = '\r' then ['\\', 'r']
  else if c = '\t' then ['\\', 't']
  else if c = '\x08' then ['\\', 'b']
  else if c = '\x0c' then ['\\', 'f']
  else if c.toNat < 32 then '\\' :: 'u' :: hex4 c.toNat
  else if c.toNat < 127 then [c]
  else if c.toNat < 65536 then '\\' :: 'u' :: hex4 c.toNat
  else
    '\\' :: 'u' :: hex4 (55296 + (c.toNat - 65536) / 1024) ++
      ('\\' :: 'u' :: hex4 (56320 + (c.toNat - 65536) % 1024))

/-- `json.dumps` escaping of a whole string body. -/
def escChars : List Char → List Char
  | [] => []
  | c :: cs => escChar c ++ escChars cs

/-- A serialized JSON string literal, quotes included. -/
def jsonStrChars (s : String) : List Char := '"' :: (escChars s.data ++ ['"'])

/-- Serialization of an optional string: Python `None` prints as `null`. -/
def jsonOptChars : Option String → List Char
  | none => ("null").data
  | some s => jsonStrChars s

/-! ### The key builder (`MemoryCache._generate_key`) -/

/-- The query normalization `_generate_key` applies: `query.lower().strip()`. -/
def normQuery (q : String) : String := pyStrip (pyLower q)

/-- The serialized key tuple
`json.dumps({'university_id': …, 'query': query.lower().strip(),
'faculty_code': …, 'limit': …}, sort_keys=True)`: with `sort_keys=True` and
the default separators this is exactly
`\x7b"faculty_code": F, "limit": L, "query": Q, "university_id": U\x7d`. -/
def keyChars (university_id : Int) (query : String) (faculty_code : Option String)
    (limit : Int) : List Char :=
  ("\x7b\"faculty_code\": ").data ++ jsonOptChars faculty_code ++
  (", \"limit\": ").data ++ intStr limit ++
  (", \"query\": ").data ++ jsonStrChars (normQuery query) ++
  (", \"university_id\": ").data ++ intStr university_id ++ ['\x7d']

/-- Embeds `MemoryCache._generate_key` up to the final digest: the source
returns `hashlib.md5(key_string.encode()).hexdigest()`; the model returns
`key_string` itself, treating the MD5 digest as an injective encoding (the
spec's collision-freedom idealization — equal strings give equal digests,
and distinct serialized tuples are assumed not to collide). -/
def MemoryCache.generate_key (university_id : Int) (query : String)
    (faculty_code : Option String) (limit : Int) : String :=
  ⟨keyChars university_id query faculty_code limit⟩

/-! ### The bounded TTL store (`MemoryCache`) -/

/-- One result row `(id, code, name)` as returned by the summary queries. -/
abbrev SearchRow := Int × String × String

/-- A cached payload: the ordered list of result rows. -/
abbrev Payload := List SearchRow

/-- The `OrderedDict` contents: key, payload, creation timestamp; front is the
least recently used position. -/
abbrev CacheState := List (String × Payload × Int)

instance decEqPayload : DecidableEq Payload :=
  inferInstanceAs (DecidableEq (List (Int × String × String)))

instance decEqCacheState : DecidableEq CacheState :=
  inferInstanceAs (DecidableEq (List (String × Payload × Int)))

/-- `OrderedDict.move_to_end(key)`: move the entry to the most-recent end. -/
def moveToEnd (k : String) : CacheState → CacheState
  | [] => []
  | e :: rest => if e.1 = k then rest ++ [e] else e :: moveToEnd k rest

/-- `del self.cache[key]`: remove the entry for `k`. -/
def delKey (k : String) : CacheState → CacheState
  | [] => []
  | e :: rest => if e.1 = k then rest else e :: delKey k rest

/-- Dict assignment `self.cache[key] = v`: overwrite in place if the key is
present (Python preserves the original position), else append at the
most-recent end. -/
def odAssign (k : String) (v : Payload × Int) : CacheState → CacheState
  | [] => [(k, v)]
  | e :: rest => if e.1 = k then (k, v) :: rest else e :: odAssign k v rest

/-- The eviction loop of `MemoryCache.set`:
`while len(self.cache) >= self.max_size: self.cache.popitem(last=False)`.
`popitem` on an empty dict raises `KeyError`, modelled as `none`. -/
def popWhileFull (max_size : Nat) : CacheState → Option CacheState
  | [] => if max_size = 0 then none else some []
  | e :: rest =>
    if max_size ≤ (e :: rest).length then popWhileFull max_size rest
    else some (e :: rest)

/-- `MemoryCache.get` on an already generated key: on a fresh hit
(`now - timestamp < ttl`) move the entry to the most-recent end and return its
payload; on an expired hit delete the entry and miss; else miss. -/
def MemoryCache.getRaw (ttl_seconds now : Int) (key : String) (st : CacheState) :
    Option Payload × CacheState :=
  match st.find? (fun e => decide (e.1 = key)) with
  | some (_, data, timestamp) =>
    if now - timestamp < ttl_seconds then (some data, moveToEnd key st)
    else (none, delKey key st)
  | none => (none, st)

/-- `MemoryCache.set` on an already generated key: run the eviction loop, then
assign `(results, now)` under the key.  `none` models the `KeyError` the
eviction loop raises when `max_size = 0` empties the dict and pops again. -/
def MemoryCache.setRaw (max_size : Nat) (now : Int) (key : String)
    (results : Payload) (st : CacheState) : Option CacheState :=
  (popWhileFull max_size st).map (odAssign key (results, now))

/-- `MemoryCache.get(university_id, query, faculty_code, limit)`. -/
def MemoryCache.get (ttl_seconds now : Int) (university_id : Int) (query : String)
    (faculty_code : Option String) (limit : Int) (st : CacheState) :
    Option Payload × CacheState :=
  MemoryCache.getRaw ttl_seconds now
    (MemoryCache.generate_key university_id query faculty_code limit) st

/-- `MemoryCache.set(university_id, query, results, faculty_code, limit)`. -/
def MemoryCache.set (max_size : Nat) (now : Int) (university_id : Int)
    (query : String) (results : Payload) (faculty_code : Option String)
    (limit : Int) (st : CacheState) : Option CacheState :=
  MemoryCache.setRaw max_size now
    (MemoryCache.generate_key university_id query faculty_code limit) results st

/-- `MemoryCache.clear`. -/
def MemoryCache.clear (_st : CacheState) : CacheState := []

/-- `MemoryCache.get_stats`: `(total, expired, active, max_size, ttl)`; an
entry counts as expired when `current_time - timestamp >= ttl_seconds`. -/
def MemoryCache.get_stats (max_size : Nat) (ttl_seconds now : Int)
    (st : CacheState) : Nat × Nat × Nat × Nat × Int :=
  let expired := (st.filter (fun e => decide (ttl_seconds ≤ now - e.2.2))).length
  (st.length, expired, st.length - expired, max_size, ttl_seconds)

/-- One store operation, with the wall-clock instant it happens at. -/
inductive CacheOp where
  | get (now : Int) (key : String)
  | set (now : Int) (key : String) (results : Payload)
  | clear
  | stats (now : Int)

/-- Effect of one store operation on the state (`stats` reads only). -/
def runOp (max_size : Nat) (ttl_seconds : Int) (st : CacheState) :
    CacheOp → Option CacheState
  | CacheOp.get now key => some (MemoryCache.getRaw ttl_seconds now key st).2
  | CacheOp.set now key results => MemoryCache.setRaw max_size now key results st
  | CacheOp.clear => some (MemoryCache.clear st)
  | CacheOp.stats _ => some st

/-- Run a sequence of store operations; `none` once any operation raises. -/
def runOps (max_size : Nat) (ttl_seconds : Int) (st : CacheState) :
    List CacheOp → Option CacheState
  | [] => some st
  | op :: rest =>
    match runOp max_size ttl_seconds st op with
    | some st' => runOps max_size ttl_seconds st' rest
    | none => none

/-! ### The course search queries (`src/database/services.py`) -/

/-- The columns of `courses` the summary queries touch. -/
structure Course where
  id : Int
  university_id : Int
  subject_id : Int
  code : String
  name : String
deriving DecidableEq

/-- The columns of `subjects` the faculty-filtered queries touch. -/
structure Subj where
  id : Int
  faculty_associations : List String
deriving DecidableEq

/-- The projection `query(Course.id, Course.code, Course.name)`. -/
def rowOf (c : Course) : SearchRow := (c.id, c.code, c.name)

/-- Filter of `search_courses_summary`: same university and
`name ILIKE '%q%' OR code ILIKE '%q%'`. -/
def summaryCond (university_id : Int) (query : String) (c : Course) : Bool :=
  decide (c.university_id = university_id) &&
    (likeHas query c.name || likeHas query c.code)

/-- Body of `search_courses_summary` (the undecorated query): filter, then
SQL `LIMIT`, then project the three columns.  Rows come back in store order
(the input order), as the query has no `ORDER BY`. -/
def search_courses_summary_body (db : List Course) (university_id : Int)
    (query : String) (limit : Int) : Payload :=
  (((db.filter (summaryCond university_id query)).take limit.toNat).map rowOf)

/-- The `case()` relevance expression of the optimized search: 1 for
`code == query.upper()` (exact, case-sensitive against the upper-cased
query), 2 for `code ILIKE query.upper() || '%'`, 3 for
`name ILIKE query || '%'`, else 4. -/
def relevanceCase (query : String) (c : Course) : Nat :=
  if c.code = pyUpper query then 1
  else if likeStarts (pyUpper query) c.code then 2
  else if likeStarts query c.name then 3
  else 4

/-- The `ORDER BY` key comparison of the optimized searches: ascending by
(relevance case, code, name) with binary string collation. -/
def rankLE (query : String) (a b : Course) : Bool :=
  if relevanceCase query a ≠ relevanceCase query b then
    decide (relevanceCase query a < relevanceCase query b)
  else if a.code ≠ b.code then strLt a.code b.code
  else !strLt b.name a.name

/-- `rankLE` as a relation, for the sort. -/
def rankRel (query : String) (a b : Course) : Prop := rankLE query a b = true

instance rankRelDec (query : String) : DecidableRel (rankRel query) :=
  fun a b => inferInstanceAs (Decidable (rankLE query a b = true))

/-- Filter of the optimized searches:
`code ILIKE 'QU%' OR code ILIKE '%QU%' OR name ILIKE 'q%' OR name ILIKE '%q%'`
(QU is the upper-cased query), under the same university. -/
def optimizedCond (university_id : Int) (query : String) (c : Course) : Bool :=
  decide (c.university_id = university_id) &&
    (likeStarts (pyUpper query) c.code || likeHas (pyUpper query) c.code ||
     likeStarts query c.name || likeHas query c.name)

/-- Body of `search_courses_summary_optimized` (the undecorated query):
filter, `ORDER BY` the relevance key (modelled by a sorted permutation),
then `LIMIT`, then project. -/
def search_courses_summary_optimized_body (db : List Course) (university_id : Int)
    (query : String) (limit : Int) : Payload :=
  (((List.insertionSort (rankRel query)
      (db.filter (optimizedCond university_id query))).take limit.toNat).map rowOf)

/-- The faculty dispatch inside the `by_faculty` queries: the query always
joins `Subject`; the `faculty_associations.contains` filter is added only
under Python truthiness (`if faculty_code:`), so `None` and `''` skip it. -/
def subjectJoinOk (subjects : List Subj) (faculty_code : Option String)
    (c : Course) : Bool :=
  match faculty_code with
  | some f =>
    if f = "" then subjects.any (fun s => decide (s.id = c.subject_id))
    else subjects.any (fun s =>
      decide (s.id = c.subject_id) && s.faculty_associations.contains f)
  | none => subjects.any (fun s => decide (s.id = c.subject_id))

/-- Body of `search_courses_summary_by_faculty` (undecorated, cache-free). -/
def search_courses_summary_by_faculty_body (db : List Course) (subjects : List Subj)
    (university_id : Int) (query : String) (faculty_code : Option String)
    (limit : Int) : Payload :=
  (((db.filter (fun c => summaryCond university_id query c &&
      subjectJoinOk subjects faculty_code c)).take limit.toNat).map rowOf)

/-- Body of `search_courses_summary_by_faculty_optimized` (undecorated). -/
def search_courses_summary_by_faculty_optimized_body (db : List Course)
    (subjects : List Subj) (university_id : Int) (query : String)
    (faculty_code : Option String) (limit : Int) : Payload :=
  (((List.insertionSort (rankRel query)
      (db.filter (fun c => optimizedCond university_id query c &&
        subjectJoinOk subjects faculty_code c))).take limit.toNat).map rowOf)

/-! ### The orchestrator (`cached_course_search`) and the endpoints -/

/-- The `cached_course_search` decorator's wrapper, as invoked by the two
decorated methods (one positional argument, the limit, so the extracted
`faculty_code` is `None`; we keep it as a parameter since the key uses it).
Short or cache-disabled calls run the backing search directly; otherwise
probe the cache, and on a miss run the backing search and store the result.
`none` propagates a cache-internal `KeyError` from `set`. -/
def cached_course_search (cache_enabled : Bool) (max_size : Nat)
    (ttl_seconds now : Int) (func : Int → String → Option String → Int → Payload)
    (university_id : Int) (query : String) (faculty_code : Option String)
    (limit : Int) (st : CacheState) : Option (Payload × CacheState) :=
  if !cache_enabled || (pyStrip query).length < 2 then
    some (func university_id query faculty_code limit, st)
  else
    match MemoryCache.get ttl_seconds now university_id query faculty_code limit st with
    | (some cached_results, st1) => some (cached_results, st1)
    | (none, st1) =>
      let results := func university_id query faculty_code limit
      (MemoryCache.set max_size now university_id query results faculty_code
          limit st1).map (fun st2 => (results, st2))

/-- `CourseService.search_courses_summary`: the plain summary search wrapped
by `cached_course_search` (called with the positional limit, so the wrapper
caches under `faculty_code = None`). -/
def search_courses_summary (db : List Course) (max_size : Nat)
    (ttl_seconds now : Int) (university_id : Int) (query : String) (limit : Int)
    (st : CacheState) : Option (Payload × CacheState) :=
  cached_course_search true max_size ttl_seconds now
    (fun u q _ l => search_courses_summary_body db u q l)
    university_id query none limit st

/-- `CourseService.search_courses_summary_optimized`: the ranked search
wrapped by the same decorator, sharing the same global cache. -/
def search_courses_summary_optimized (db : List Course) (max_size : Nat)
    (ttl_seconds now : Int) (university_id : Int) (query : String) (limit : Int)
    (st : CacheState) : Option (Payload × CacheState) :=
  cached_course_search true max_size ttl_seconds now
    (fun u q _ l => search_courses_summary_optimized_body db u q l)
    university_id query none limit st

/-- Python truthiness of the `faculty_code` request parameter: `None` and the
empty string are falsy. -/
def truthyStr : Option String → Bool
  | none => false
  | some s => !decide (s = "")

/-- The `/courses/search` endpoint (`search_courses_for_dropdown`), after
university resolution (the university lookup is an external collaborator;
`university_id` is the resolved id).  FastAPI validates `min_length=1` on the
raw `q`; then `if faculty_code:` dispatches to the uncached faculty search,
else to the cached summary search.  The outer `Option` propagates an uncaught
cache-internal exception; `Except` carries the validation rejection. -/
def search_courses_for_dropdown (db : List Course) (subjects : List Subj)
    (max_size : Nat) (ttl_seconds now : Int) (university_id : Int)
    (q : String) (faculty_code : Option String) (limit : Int) (st : CacheState) :
    Option (Except String (Payload × CacheState)) :=
  if q.length < 1 then some (Except.error ("q: string should have at least 1 character"))
  else if truthyStr faculty_code then
    some (Except.ok
      (search_courses_summary_by_faculty_body db subjects university_id q
        faculty_code limit, st))
  else
    (search_courses_summary db max_size ttl_seconds now university_id q limit
        st).map Except.ok

/-- The `/courses/search/optimized` endpoint (`search_courses_optimized`),
same dispatch shape over the ranked searches. -/
def search_courses_optimized_endpoint (db : List Course) (subjects : List Subj)
    (max_size : Nat) (ttl_seconds now : Int) (university_id : Int)
    (q : String) (faculty_code : Option String) (limit : Int) (st : CacheState) :
    Option (Except String (Payload × CacheState)) :=
  if q.length < 1 then some (Except.error ("q: string should have at least 1 character"))
  else if truthyStr faculty_code then
    some (Except.ok
      (search_courses_summary_by_faculty_optimized_body db subjects university_id q
        faculty_code limit, st))
  else
    (search_courses_summary_optimized db max_size ttl_seconds now university_id q
        limit st).map Except.ok

/-! ### The spec's reading of the match tiers (for the refinement check)

The spec defines `ExactCode` as "code equals the query, case-insensitive".
These definitions follow the spec's words (not the source) and exist only to
be compared with the source's `relevanceCase` ordering. -/

/-- MatchTier ordinal as the spec words it, computed on a result row
`(id, code, name)`: `ExactCode` (code equals the query case-insensitively) =
1, `CodePrefix` = 2, `NamePrefix` = 3, `Partial` = 4. -/
def specMatchTier (query : String) (r : SearchRow) : Nat :=
  if pyLower r.2.1 = pyLower query then 1
  else if likeStarts query r.2.1 then 2
  else if likeStarts query r.2.2 then 3
  else 4

/-- The spec's claimed output order on rows: ascending by
(MatchTier ordinal, code, name). -/
def specRowLE (query : String) (a b : SearchRow) : Bool :=
  if specMatchTier query a ≠ specMatchTier query b then
    decide (specMatchTier query a < specMatchTier query b)
  else if a.2.1 ≠ b.2.1 then strLt a.2.1 b.2.1
  else !strLt b.2.2 a.2.2

/-- Simple-escape decoding (`\\n`, `\\r`, `\\t`, `\\b`, `\\f`, and the
identity cases `\\"` and `\\\\`), used by the serialization decoder. -/
def unescSimple (e : Char) : Char :=
  if e = 'n' then '\n'
  else if e = 'r' then '\r'
  else if e = 't' then '\t'
  else if e = 'b' then '\x08'
  else if e = 'f' then '\x0c'
  else e

/-- Decoder for escaped JSON string bodies, used only to prove the key
serialization injective: consumes characters up to the closing quote,
undoing `escChar` (including surrogate pairs), and returns the decoded body
together with the remainder after the quote. -/
def consumeStr : List Char → Option (List Char × List Char)
  | [] => none
  | c :: rest =>
    if c = '"' then some ([], rest)
    else if c = '\\' then
      match rest with
      | [] => none
      | e :: rest1 =>
        if e = 'u' then
          match rest1 with
          | h1 :: h2 :: h3 :: h4 :: rest2 =>
            if 55296 ≤ ((hexVal h1 * 16 + hexVal h2) * 16 + hexVal h3) * 16 + hexVal h4 ∧
                ((hexVal h1 * 16 + hexVal h2) * 16 + hexVal h3) * 16 + hexVal h4 < 56320 then
              match rest2 with
              | b1 :: b2 :: g1 :: g2 :: g3 :: g4 :: rest3 =>
                if b1 = '\\' ∧ b2 = 'u' then
                  match consumeStr rest3 with
                  | some (s, r) =>
                    some (Char.ofNat (65536 +
                      (((hexVal h1 * 16 + hexVal h2) * 16 + hexVal h3) * 16 + hexVal h4 - 55296) * 1024 +
                      (((hexVal g1 * 16 + hexVal g2) * 16 + hexVal g3) * 16 + hexVal g4 - 56320)) :: s, r)
                  | none => none
                else none
              | _ => none
            else
              match consumeStr rest2 with
              | some (s, r) =>
                some (Char.ofNat (((hexVal h1 * 16 + hexVal h2) * 16 + hexVal h3) * 16 + hexVal h4) :: s, r)
              | none => none
          | _ => none
        else
          match consumeStr rest1 with
          | some (s, r) => some (unescSimple e :: s, r)
          | none => none
    else
      match consumeStr rest with
      | some (s, r) => some (c :: s, r)
      | none => none

/-- Two-course database used for the concrete orchestrator runs: for the
query "10" the plain search returns store order (MATH100 first) while the
ranked search returns code order (CMPUT101 first), so the two payloads are
distinguishable. -/
def collisionDb : List Course :=
  [⟨1, 1, 1, ("MATH100"), ("Calculus")⟩, ⟨2, 1, 1, ("CMPUT101"), ("Computing")⟩]

/-- Database with a lower-case stored code, used to separate the source's
tier 1 test (`code == query.upper()`, case-sensitive on the stored code)
from the spec's case-insensitive `ExactCode`. -/
def mixedCaseDb : List Course :=
  [⟨1, 1, 1, ("cmput101"), ("N1")⟩, ⟨2, 1, 1, ("CMPUT1011"), ("N2")⟩]

/-! ## Helper lemmas about the store -/

theorem moveToEnd_length (k : String) :
    ∀ st : CacheState, (moveToEnd k st).length = st.length := by
  intro st
  induction st with
  | nil => rfl
  | cons e rest ih =>
    simp only [moveToEnd]
    split
    · simp
    · simp [ih]

theorem delKey_length_le (k : String) :
    ∀ st : CacheState, (delKey k st).length ≤ st.length := by
  intro st
  induction st with
  | nil => simp [delKey]
  | cons e rest ih =>
    simp only [delKey]
    split
    · simp
    · simpa using Nat.succ_le_succ ih

theorem getRaw_state_length_le (ttl now : Int) (k : String) (st : CacheState) :
    ((MemoryCache.getRaw ttl now k st).2).length ≤ st.length := by
  unfold MemoryCache.getRaw
  rcases h : st.find? (fun e => decide (e.1 = k)) with _ | ⟨a, d, t⟩
  · simp [h]
  · simp only [h]
    split
    · simp [moveToEnd_length]
    · simp [delKey_length_le]

theorem popWhileFull_isSome (m : Nat) (hm : 1 ≤ m) :
    ∀ st : CacheState, (popWhileFull m st).isSome := by
  intro st
  induction st with
  | nil => simp [popWhileFull]; omega
  | cons e rest ih =>
    simp only [popWhileFull]
    split
    · exact ih
    · simp

theorem popWhileFull_length (m : Nat) :
    ∀ st st' : CacheState, popWhileFull m st = some st' → st'.length < m := by
  intro st
  induction st with
  | nil =>
    intro st' h
    simp only [popWhileFull] at h
    split at h
    · simp at h
    · simp only [Option.some.injEq] at h
      subst h
      simp
      omega
  | cons e rest ih =>
    intro st' h
    simp only [popWhileFull] at h
    split at h
    · exact ih st' h
    · simp only [Option.some.injEq] at h
      subst h
      omega

theorem odAssign_length_le (k : String) (v : Payload × Int) :
    ∀ st : CacheState, (odAssign k v st).length ≤ st.length + 1 := by
  intro st
  induction st with
  | nil => simp [odAssign]
  | cons e rest ih =>
    simp only [odAssign]
    split
    · simp
    · simpa using Nat.succ_le_succ ih

theorem setRaw_length (m : Nat) (now : Int) (k : String) (v : Payload)
    (st st' : CacheState) (h : MemoryCache.setRaw m now k v st = some st') :
    st'.length ≤ m := by
  unfold MemoryCache.setRaw at h
  rcases hp : popWhileFull m st with _ | st0
  · rw [hp] at h; simp at h
  · rw [hp] at h
    simp only [Option.map, Option.some.injEq] at h
    subst h
    have h1 := popWhileFull_length m st st0 hp
    have h2 := odAssign_length_le k (v, now) st0
    omega

theorem runOp_length (m : Nat) (ttl : Int) (st st' : CacheState) (op : CacheOp)
    (hst : st.length ≤ m) (h : runOp m ttl st op = some st') : st'.length ≤ m := by
  cases op with
  | get now key =>
    simp only [runOp, Option.some.injEq] at h
    subst h
    exact le_trans (getRaw_state_length_le ttl now key st) hst
  | set now key results =>
    exact setRaw_length m now key results st st' h
  | clear =>
    simp only [runOp, MemoryCache.clear, Option.some.injEq] at h
    subst h
    simp
  | stats now =>
    simp only [runOp, Option.some.injEq] at h
    subst h
    exact hst

theorem runOps_length (m : Nat) (ttl : Int) :
    ∀ (ops : List CacheOp) (st st' : CacheState), st.length ≤ m →
      runOps m ttl st ops = some st' → st'.length ≤ m := by
  intro ops
  induction ops with
  | nil =>
    intro st st' hst h
    simp only [runOps, Option.some.injEq] at h
    subst h
    exact hst
  | cons op rest ih =>
    intro st st' hst h
    simp only [runOps] at h
    rcases h1 : runOp m ttl st op with _ | st1
    · rw [h1] at h; simp at h
    · rw [h1] at h
      exact ih st1 st' (runOp_length m ttl st st1 op hst h1) h

theorem popWhileFull_of_lt (m : Nat) (st : CacheState) (h : st.length < m) :
    popWhileFull m st = some st := by
  cases st with
  | nil =>
    simp only [popWhileFull]
    split
    · omega
    · rfl
  | cons e rest =>
    simp only [popWhileFull]
    split
    · omega
    · rfl

theorem odAssign_fresh (k : String) (v : Payload × Int) :
    ∀ st : CacheState, k ∉ st.map Prod.fst → odAssign k v st = st ++ [(k, v)] := by
  intro st
  induction st with
  | nil => intro _; rfl
  | cons e rest ih =>
    intro hk
    simp only [List.map_cons, List.mem_cons] at hk
    push_neg at hk
    simp only [odAssign]
    rw [if_neg (fun he => hk.1 he.symm), ih hk.2]
    simp

theorem setRaw_fresh_below (m : Nat) (now : Int) (k : String) (v : Payload)
    (st : CacheState) (hlen : st.length < m) (hk : k ∉ st.map Prod.fst) :
    MemoryCache.setRaw m now k v st = some (st ++ [(k, v, now)]) := by
  unfold MemoryCache.setRaw
  rw [popWhileFull_of_lt m st hlen]
  simp [odAssign_fresh k (v, now) st hk]

theorem setRaw_fresh_full (m : Nat) (now : Int) (k : String) (v : Payload)
    (e : String × Payload × Int) (rest : CacheState)
    (hlen : (e :: rest).length = m) (hm : 1 ≤ m) (hk : k ∉ rest.map Prod.fst) :
    MemoryCache.setRaw m now k v (e :: rest) = some (rest ++ [(k, v, now)]) := by
  unfold MemoryCache.setRaw
  have h1 : popWhileFull m (e :: rest) = some rest := by
    simp only [popWhileFull]
    rw [if_pos (by omega)]
    exact popWhileFull_of_lt m rest (by simp at hlen; omega)
  rw [h1]
  simp [odAssign_fresh k (v, now) rest hk]

theorem runOps_append (m : Nat) (ttl : Int) :
    ∀ (a b : List CacheOp) (st : CacheState),
      runOps m ttl st (a ++ b) =
        match runOps m ttl st a with
        | some st' => runOps m ttl st' b
        | none => none := by
  intro a
  induction a with
  | nil => intro b st; rfl
  | cons op rest ih =>
    intro b st
    simp only [List.cons_append, runOps]
    rcases runOp m ttl st op with _ | st1
    · rfl
    · exact ih b st1

theorem runOps_cons_some (m : Nat) (ttl : Int) (st st1 : CacheState)
    (op : CacheOp) (rest : List CacheOp) (h : runOp m ttl st op = some st1) :
    runOps m ttl st (op :: rest) = runOps m ttl st1 rest := by
  simp only [runOps, h]

theorem runSets_below (m : Nat) (ttl now : Int) (v : Payload) :
    ∀ (ks : List String) (st : CacheState), ks.Nodup →
      (∀ k ∈ ks, k ∉ st.map Prod.fst) → st.length + ks.length ≤ m →
      runOps m ttl st (ks.map (fun k => CacheOp.set now k v)) =
        some (st ++ ks.map (fun k => (k, v, now))) := by
  intro ks
  induction ks with
  | nil => intro st _ _ _; simp [runOps]
  | cons k0 rest ih =>
    intro st hnd hfresh hlen
    simp only [List.map_cons]
    rw [runOps_cons_some m ttl st (st ++ [(k0, v, now)]) _ _
      (by
        simp only [runOp]
        exact setRaw_fresh_below m now k0 v st (by simp at hlen; omega)
          (hfresh k0 (by simp)))]
    rw [ih (st ++ [(k0, v, now)])
      (by exact hnd.of_cons)
      (by
        intro k hk
        simp only [List.map_append, List.mem_append, List.map_cons, List.map_nil,
          List.mem_cons, List.not_mem_nil, or_false, not_or]
        refine ⟨hfresh k (by simp [hk]), ?_⟩
        have := List.rel_of_pairwise_cons hnd hk
        exact fun he => this he.symm)
      (by simp at hlen ⊢; omega)]
    simp

theorem runSets_evict_first (m : Nat) (ttl now : Int) (v : Payload)
    (ks : List String) (hm : 1 ≤ m) (hnd : ks.Nodup) (hlen : ks.length = m + 1) :
    runOps m ttl [] (ks.map (fun k => CacheOp.set now k v)) =
      some ((ks.drop 1).map (fun k => (k, v, now))) := by
  cases ks with
  | nil => simp at hlen
  | cons k0 rest =>
    rcases List.eq_nil_or_concat rest with hr | ⟨front, klast, hr⟩
    · subst hr; simp at hlen; omega
    · rw [List.concat_eq_append] at hr
      subst hr
      have hfront : front.length = m - 1 := by simp at hlen; omega
      obtain ⟨hk0, hfr⟩ := List.nodup_cons.mp hnd
      obtain ⟨hfnd, -, hdisj⟩ := List.nodup_append.mp hfr
      have hkl_front : klast ∉ front := fun h => hdisj h (by simp)
      have hk0_front : k0 ∉ front := fun h => hk0 (List.mem_append.mpr (Or.inl h))
      have hnd' : (k0 :: front).Nodup := List.nodup_cons.mpr ⟨hk0_front, hfnd⟩
      have hphase1 :
          runOps m ttl [] ((k0 :: front).map (fun k => CacheOp.set now k v)) =
            some ((k0 :: front).map (fun k => (k, v, now))) := by
        apply runSets_below m ttl now v (k0 :: front) [] hnd'
        · simp
        · simp [hfront]; omega
      have hsplit : (k0 :: (front ++ [klast])).map (fun k => CacheOp.set now k v) =
          (k0 :: front).map (fun k => CacheOp.set now k v) ++
            [CacheOp.set now klast v] := by simp
      have hklast : klast ∉ (front.map (fun k => ((k : String), v, now))).map Prod.fst := by
        simp only [List.map_map]
        simpa using hkl_front
      have hstep : runOp m ttl ((k0, v, now) :: front.map (fun k => (k, v, now)))
          (CacheOp.set now klast v) =
          some (front.map (fun k => ((k : String), v, now)) ++ [(klast, v, now)]) := by
        show MemoryCache.setRaw m now klast v
            ((k0, v, now) :: front.map (fun k => (k, v, now))) =
          some (front.map (fun k => (k, v, now)) ++ [(klast, v, now)])
        apply setRaw_fresh_full
        · simp only [List.length_cons, List.length_map]
          omega
        · exact hm
        · exact hklast
      rw [hsplit, runOps_append, hphase1]
      show runOps m ttl ((k0, v, now) :: front.map (fun k => (k, v, now)))
          [CacheOp.set now klast v] =
        some (((k0 :: (front ++ [klast])).drop 1).map (fun k => (k, v, now)))
      rw [runOps_cons_some m ttl _ _ _ _ hstep]
      simp [runOps]

/-! ## Helper lemmas for overwrite and expiry behavior -/

theorem odAssign_keys (k : String) (v : Payload × Int) :
    ∀ st : CacheState, k ∈ st.map Prod.fst →
      (odAssign k v st).map Prod.fst = st.map Prod.fst := by
  intro st
  induction st with
  | nil => intro h; simp at h
  | cons e rest ih =>
    intro hmem
    simp only [odAssign]
    split
    · next he => simp [he]
    · next he =>
      simp only [List.map_cons, List.mem_cons] at hmem
      rcases hmem with h | h
      · exact absurd h.symm he
      · simp [ih h]

theorem odAssign_find (k : String) (v : Payload × Int) :
    ∀ st : CacheState,
      (odAssign k v st).find? (fun e => decide (e.1 = k)) = some (k, v) := by
  intro st
  induction st with
  | nil => simp [odAssign, List.find?]
  | cons e rest ih =>
    simp only [odAssign]
    split
    · simp [List.find?]
    · next he =>
      rw [List.find?_cons_of_neg _ (by simpa using he)]
      exact ih

theorem moveToEnd_eq_delKey_append (k : String) :
    ∀ (st : CacheState) (p : Payload) (t : Int),
      st.find? (fun e => decide (e.1 = k)) = some (k, p, t) →
      moveToEnd k st = delKey k st ++ [(k, p, t)] := by
  intro st
  induction st with
  | nil => intro p t h; simp [List.find?] at h
  | cons e rest ih =>
    intro p t h
    by_cases he : e.1 = k
    · rw [List.find?_cons_of_pos _ (by simpa using he)] at h
      simp only [Option.some.injEq] at h
      simp [moveToEnd, delKey, he, h]
    · rw [List.find?_cons_of_neg _ (by simpa using he)] at h
      simp [moveToEnd, delKey, he, ih p t h]

theorem delKey_not_mem (k : String) :
    ∀ st : CacheState, (st.map Prod.fst).Nodup → k ∉ (delKey k st).map Prod.fst := by
  intro st
  induction st with
  | nil => intro _; simp [delKey]
  | cons e rest ih =>
    intro hnd
    simp only [List.map_cons, List.nodup_cons] at hnd
    simp only [delKey]
    split
    · next he => rw [← he]; exact hnd.1
    · next he =>
      simp only [List.map_cons, List.mem_cons, not_or]
      exact ⟨fun h => he h.symm, ih hnd.2⟩

/-! ## Claims C2, C9, C3, C4: the bounded TTL store -/

/-- **C2.** For every sequence of get/set/clear/stats operations on a store of
capacity `C ≥ 1`, the entry count never exceeds `C`; and inserting `C + 1`
distinct keys (the first never re-accessed) evicts exactly the first key: the
final state holds exactly the entries for the last `C` keys, in order —
regardless of the TTL and of the entries' timestamps (eviction ignores
remaining TTL). -/
theorem claim_C2_lru_capacity (C : Nat) (ttl : Int) (hC : 1 ≤ C) :
    (∀ (ops : List CacheOp) (st : CacheState),
      runOps C ttl [] ops = some st → st.length ≤ C) ∧
    (∀ (ks : List String) (v : Payload) (now : Int),
      ks.Nodup → ks.length = C + 1 →
      runOps C ttl [] (ks.map (fun k => CacheOp.set now k v)) =
        some ((ks.drop 1).map (fun k => (k, v, now)))) := by
  constructor
  · intro ops st h
    exact runOps_length C ttl ops [] st (by simp) h
  · intro ks v now hnd hlen
    exact runSets_evict_first C ttl now v ks hC hnd hlen

/-- Witness for C2 at capacity 2: inserting the three distinct keys a, b, c
leaves exactly b and c, with a (the least recently used) evicted. -/
theorem claim_C2_lru_capacity_witness :
    1 ≤ 2 ∧ (["a", "b", "c"] : List String).Nodup ∧
    runOps 2 300 [] ((["a", "b", "c"] : List String).map
        (fun k => CacheOp.set 7 k [(1, ("X"), ("Y"))])) =
      some (((["a", "b", "c"] : List String).drop 1).map
        (fun k => (k, [(1, ("X"), ("Y"))], 7))) :=
  ⟨by decide, by decide,
    (claim_C2_lru_capacity 2 300 (by decide)).2 ["a", "b", "c"]
      [(1, ("X"), ("Y"))] 7 (by decide) (by decide)⟩

/-- **C9 (counterexample).** With capacity 0 — a constructible configuration,
`MemoryCache(max_size=0)` — the very first `set` raises: the eviction loop
`while len(cache) >= 0` empties the dict and then calls `popitem` on it,
which raises `KeyError`.  So it is not true that no store operation raises
for *every* configuration of capacity and ttl. -/
theorem claim_C9_counterexample :
    runOps 0 300 [] [CacheOp.set 0 ("k") []] = none := rfl

/-- **C9 (amended).** For every capacity `C ≥ 1`: no store operation raises,
for every state, every parameter, and every operation sequence (`get`,
`clear` and `stats` are total by construction; `set` always succeeds because
the eviction loop only pops from a nonempty dict). -/
theorem claim_C9_no_raise (C : Nat) (ttl : Int) (hC : 1 ≤ C) :
    (∀ (now : Int) (k : String) (v : Payload) (st : CacheState),
      (MemoryCache.setRaw C now k v st).isSome) ∧
    (∀ (st : CacheState) (ops : List CacheOp),
      (runOps C ttl st ops).isSome) := by
  have hset : ∀ (now : Int) (k : String) (v : Payload) (st : CacheState),
      (MemoryCache.setRaw C now k v st).isSome := by
    intro now k v st
    unfold MemoryCache.setRaw
    have := popWhileFull_isSome C hC st
    rcases hp : popWhileFull C st with _ | st0
    · rw [hp] at this; simp at this
    · simp
  refine ⟨hset, ?_⟩
  intro st ops
  induction ops generalizing st with
  | nil => simp [runOps]
  | cons op rest ih =>
    cases op with
    | get now key => simpa [runOps, runOp] using ih _
    | set now key results =>
      have := hset now key results st
      rcases hs : MemoryCache.setRaw C now key results st with _ | st1
      · rw [hs] at this; simp at this
      · rw [runOps_cons_some C ttl st st1 _ rest (by simpa [runOp] using hs)]
        exact ih st1
    | clear => simpa [runOps, runOp] using ih _
    | stats now => simpa [runOps, runOp] using ih _

/-- Witness for C9 (amended) at capacity 1. -/
theorem claim_C9_no_raise_witness :
    1 ≤ 1 ∧
    ((∀ (now : Int) (k : String) (v : Payload) (st : CacheState),
      (MemoryCache.setRaw 1 now k v st).isSome) ∧
    (∀ (st : CacheState) (ops : List CacheOp),
      (runOps 1 300 st ops).isSome)) :=
  ⟨by decide, claim_C9_no_raise 1 300 (by decide)⟩

/-- **C3 (counterexample).** Overwriting an existing key refreshes the payload
and the creation timestamp but *not* the recency position: after setting keys
a then b and then re-setting a, the entry for a keeps the front
(least-recently-used) position — the most recent entry is still b, so a did
not become most-recently-used as the claim states. -/
theorem claim_C3_counterexample :
    MemoryCache.setRaw 10 2 ("a") [(3, ("C3"), ("N3"))]
        [(("a"), [(1, ("C1"), ("N1"))], 0), (("b"), [(2, ("C2"), ("N2"))], 1)] =
      some [(("a"), [(3, ("C3"), ("N3"))], 2), (("b"), [(2, ("C2"), ("N2"))], 1)] ∧
    (([(("a"), [(3, ("C3"), ("N3"))], 2), (("b"), [(2, ("C2"), ("N2"))], 1)] :
        CacheState).map Prod.fst).getLast? ≠ some ("a") := by
  constructor
  · rfl
  · decide

/-- **C3 (amended).** A `set` on a key already present in a store below
capacity refreshes the entry's payload and its creation timestamp (the TTL
clock restarts at the put), but leaves its recency position unchanged (dict
assignment preserves the original position; the entry does not become
most-recently-used). -/
theorem claim_C3_overwrite (C : Nat) (now : Int) (k : String) (v : Payload)
    (st : CacheState) (hmem : k ∈ st.map Prod.fst) (hlen : st.length < C) :
    MemoryCache.setRaw C now k v st = some (odAssign k (v, now) st) ∧
    (odAssign k (v, now) st).map Prod.fst = st.map Prod.fst ∧
    (odAssign k (v, now) st).find? (fun e => decide (e.1 = k)) = some (k, v, now) := by
  refine ⟨?_, odAssign_keys k (v, now) st hmem, odAssign_find k (v, now) st⟩
  unfold MemoryCache.setRaw
  rw [popWhileFull_of_lt C st hlen]
  rfl

/-- Witness for C3 (amended): overwriting a in [a, b] keeps the key order
[a, b] and stores the new payload and timestamp. -/
theorem claim_C3_overwrite_witness :
    (("a") ∈ ([(("a"), [(1, ("C1"), ("N1"))], 0), (("b"), [(2, ("C2"), ("N2"))], 1)] :
        CacheState).map Prod.fst) ∧
    (([(("a"), [(1, ("C1"), ("N1"))], 0), (("b"), [(2, ("C2"), ("N2"))], 1)] :
        CacheState).length < 10) ∧
    (MemoryCache.setRaw 10 2 ("a") [(3, ("C3"), ("N3"))]
        [(("a"), [(1, ("C1"), ("N1"))], 0), (("b"), [(2, ("C2"), ("N2"))], 1)] =
      some (odAssign ("a") ([(3, ("C3"), ("N3"))], 2)
        [(("a"), [(1, ("C1"), ("N1"))], 0), (("b"), [(2, ("C2"), ("N2"))], 1)]) ∧
    (odAssign ("a") ([(3, ("C3"), ("N3"))], 2)
        [(("a"), [(1, ("C1"), ("N1"))], 0), (("b"), [(2, ("C2"), ("N2"))], 1)]).map Prod.fst =
      ([(("a"), [(1, ("C1"), ("N1"))], 0), (("b"), [(2, ("C2"), ("N2"))], 1)] :
        CacheState).map Prod.fst ∧
    (odAssign ("a") ([(3, ("C3"), ("N3"))], 2)
        [(("a"), [(1, ("C1"), ("N1"))], 0), (("b"), [(2, ("C2"), ("N2"))], 1)]).find?
        (fun e => decide (e.1 = ("a"))) = some (("a"), [(3, ("C3"), ("N3"))], 2)) :=
  ⟨by decide, by decide,
    claim_C3_overwrite 10 2 ("a") [(3, ("C3"), ("N3"))]
      [(("a"), [(1, ("C1"), ("N1"))], 0), (("b"), [(2, ("C2"), ("N2"))], 1)]
      (by decide) (by decide)⟩

/-- **C4.** For an entry inserted at time `t0` with ttl `T` (found under key
`k`, keys unduplicated): a `get` strictly before `t0 + T` returns the cached
payload and moves the entry to the most-recently-used end; a `get` at or
after `t0 + T` treats the entry as absent, removing it from the store before
returning absent. -/
theorem claim_C4_ttl_boundary (T now t0 : Int) (k : String) (p : Payload)
    (st : CacheState)
    (hfind : st.find? (fun e => decide (e.1 = k)) = some (k, p, t0))
    (hnd : (st.map Prod.fst).Nodup) :
    (now < t0 + T →
      MemoryCache.getRaw T now k st = (some p, delKey k st ++ [(k, p, t0)])) ∧
    (t0 + T ≤ now →
      MemoryCache.getRaw T now k st = (none, delKey k st) ∧
      k ∉ (delKey k st).map Prod.fst) := by
  constructor
  · intro hlt
    unfold MemoryCache.getRaw
    rw [hfind]
    show (if now - t0 < T then (some p, moveToEnd k st) else (none, delKey k st)) = _
    rw [if_pos (by omega)]
    rw [moveToEnd_eq_delKey_append k st p t0 hfind]
  · intro hge
    refine ⟨?_, delKey_not_mem k st hnd⟩
    unfold MemoryCache.getRaw
    rw [hfind]
    show (if now - t0 < T then (some p, moveToEnd k st) else (none, delKey k st)) = _
    rw [if_neg (by omega)]

/-- Witness for C4: a single entry inserted at time 0 with ttl 10 is a hit at
time 5 and an expired miss at time 10. -/
theorem claim_C4_ttl_boundary_witness :
    (([(("k1"), [(1, ("A"), ("B"))], 0)] : CacheState).find?
        (fun e => decide (e.1 = ("k1"))) = some (("k1"), [(1, ("A"), ("B"))], 0)) ∧
    ((([(("k1"), [(1, ("A"), ("B"))], 0)] : CacheState).map Prod.fst).Nodup) ∧
    ((5 : Int) < 0 + 10 →
      MemoryCache.getRaw 10 5 ("k1") [(("k1"), [(1, ("A"), ("B"))], 0)] =
        (some [(1, ("A"), ("B"))],
          delKey ("k1") [(("k1"), [(1, ("A"), ("B"))], 0)] ++ [(("k1"), [(1, ("A"), ("B"))], 0)])) ∧
    ((0 : Int) + 10 ≤ 10 →
      MemoryCache.getRaw 10 10 ("k1") [(("k1"), [(1, ("A"), ("B"))], 0)] =
        (none, delKey ("k1") [(("k1"), [(1, ("A"), ("B"))], 0)]) ∧
      ("k1") ∉ (delKey ("k1") [(("k1"), [(1, ("A"), ("B"))], 0)]).map Prod.fst) :=
  ⟨by decide, by decide,
    (claim_C4_ttl_boundary 10 5 0 ("k1") [(1, ("A"), ("B"))]
      [(("k1"), [(1, ("A"), ("B"))], 0)] (by decide) (by decide)).1,
    (claim_C4_ttl_boundary 10 10 0 ("k1") [(1, ("A"), ("B"))]
      [(("k1"), [(1, ("A"), ("B"))], 0)] (by decide) (by decide)).2⟩

/-! ## Claims C1, C7, C8, C10: orchestrator and endpoints -/

/-- **C1 (code bug, concrete run).** Ranked and unranked searches with
identical (scope, query, filter, limit) share one cache key: `_generate_key`
hashes only `(university_id, query, faculty_code, limit)` — no ranking-mode
field — and both decorated methods share the global cache.  Running the
ranked (optimized) search on an empty cache and then the equivalent unranked
search returns the *ranked* payload straight from the cache, although a
fresh backing search would have returned the distinct unranked payload.  The
claimed key separation does not exist in the code. -/
theorem claim_C1_ranked_unranked_collision :
    ((search_courses_summary_optimized collisionDb 10 300 0 1 ("10") 10 []).bind
      (fun r1 => (search_courses_summary collisionDb 10 300 1 1 ("10") 10 r1.2).map
        (fun r2 => (r1.1, r2.1)))) =
      some ([(2, ("CMPUT101"), ("Computing")), (1, ("MATH100"), ("Calculus"))],
            [(2, ("CMPUT101"), ("Computing")), (1, ("MATH100"), ("Calculus"))]) ∧
    search_courses_summary_body collisionDb 1 ("10") 10 =
      [(1, ("MATH100"), ("Calculus")), (2, ("CMPUT101"), ("Computing"))] ∧
    ([(2, ("CMPUT101"), ("Computing")), (1, ("MATH100"), ("Calculus"))] : Payload) ≠
      [(1, ("MATH100"), ("Calculus")), (2, ("CMPUT101"), ("Computing"))] := by
  exact ⟨rfl, rfl, by decide⟩

/-- **C7 (counterexample).** A request with query "c" (trimmed length 1 < 2)
is *not* rejected: the endpoint accepts it (FastAPI only enforces
`min_length=1` on the raw string) and the decorator, rather than signaling
`InvalidQuery`, silently runs the backing search and returns its rows. -/
theorem claim_C7_counterexample :
    search_courses_for_dropdown collisionDb [] 10 300 0 1 ("c") none 50 [] =
      some (Except.ok
        ([(1, ("MATH100"), ("Calculus")), (2, ("CMPUT101"), ("Computing"))], [])) := rfl

/-- **C7 (amended).** Only the empty raw query is rejected (the FastAPI
`min_length=1` validation); a nonempty query whose trimmed length is `< 2`
is not rejected and no `InvalidQuery` is signaled — the request bypasses the
cache and returns the backing search's rows directly. -/
theorem claim_C7_short_query (db : List Course) (subs : List Subj) (C : Nat)
    (ttl now uid : Int) (q : String) (fc : Option String) (lim : Int)
    (st : CacheState) (h1 : 1 ≤ q.length) (h2 : (pyStrip q).length < 2)
    (h3 : truthyStr fc = false) :
    search_courses_for_dropdown db subs C ttl now uid q fc lim st =
      some (Except.ok (search_courses_summary_body db uid q lim, st)) ∧
    (∀ q0 : String, q0.length < 1 →
      search_courses_for_dropdown db subs C ttl now uid q0 fc lim st =
        some (Except.error ("q: string should have at least 1 character"))) := by
  constructor
  · unfold search_courses_for_dropdown
    rw [if_neg (by omega), if_neg (by simp [h3])]
    unfold search_courses_summary cached_course_search
    rw [if_pos (by simp [h2])]
    rfl
  · intro q0 h0
    unfold search_courses_for_dropdown
    rw [if_pos h0]

/-- Witness for C7 (amended) at query " x " (raw length 3, trimmed length 1). -/
theorem claim_C7_short_query_witness :
    1 ≤ (" x ").length ∧ (pyStrip (" x ")).length < 2 ∧ truthyStr none = false ∧
    (search_courses_for_dropdown collisionDb [] 10 300 0 1 (" x ") none 50 [] =
      some (Except.ok (search_courses_summary_body collisionDb 1 (" x ") 50, [])) ∧
    (∀ q0 : String, q0.length < 1 →
      search_courses_for_dropdown collisionDb [] 10 300 0 1 q0 none 50 [] =
        some (Except.error ("q: string should have at least 1 character")))) :=
  ⟨by decide, by decide, by decide,
    claim_C7_short_query collisionDb [] 10 300 0 1 (" x ") none 50 []
      (by decide) (by decide) (by decide)⟩

/-- **C8.** A search whose trimmed query has length 1 bypasses the cache
entirely: the wrapper returns the backing collaborator's result and leaves
the cache state untouched, so two consecutive searches against backing
collaborators that return different results yield different results. -/
theorem claim_C8_short_bypass (C : Nat) (ttl now1 now2 : Int)
    (f1 f2 : Int → String → Option String → Int → Payload)
    (uid : Int) (q : String) (fc : Option String) (lim : Int) (st : CacheState)
    (hq : (pyStrip q).length = 1) :
    cached_course_search true C ttl now1 f1 uid q fc lim st =
      some (f1 uid q fc lim, st) ∧
    cached_course_search true C ttl now2 f2 uid q fc lim st =
      some (f2 uid q fc lim, st) ∧
    (f1 uid q fc lim ≠ f2 uid q fc lim →
      ∀ (r1 r2 : Payload) (st1 st2 : CacheState),
        cached_course_search true C ttl now1 f1 uid q fc lim st = some (r1, st1) →
        cached_course_search true C ttl now2 f2 uid q fc lim st1 = some (r2, st2) →
        r1 ≠ r2) := by
  have hby : ∀ (now : Int) (f : Int → String → Option String → Int → Payload)
      (st' : CacheState),
      cached_course_search true C ttl now f uid q fc lim st' =
        some (f uid q fc lim, st') := by
    intro now f st'
    unfold cached_course_search
    rw [if_pos (by simp [hq])]
  refine ⟨hby now1 f1 st, hby now2 f2 st, ?_⟩
  intro hne r1 r2 st1 st2 h1 h2
  rw [hby now1 f1 st] at h1
  simp only [Option.some.injEq, Prod.mk.injEq] at h1
  rw [← h1.2, hby now2 f2 st] at h2
  simp only [Option.some.injEq, Prod.mk.injEq] at h2
  rw [← h1.1, ← h2.1]
  exact hne

/-- Witness for C8 at query "c" with two constant backing collaborators that
return different payloads. -/
theorem claim_C8_short_bypass_witness :
    (pyStrip ("c")).length = 1 ∧
    (cached_course_search true 10 300 0
        (fun _ _ _ _ => [(1, ("A"), ("B"))]) 1 ("c") none 50 [] =
      some ([(1, ("A"), ("B"))], []) ∧
    cached_course_search true 10 300 1
        (fun _ _ _ _ => [(2, ("C"), ("D"))]) 1 ("c") none 50 [] =
      some ([(2, ("C"), ("D"))], []) ∧
    (((fun (_ : Int) (_ : String) (_ : Option String) (_ : Int) =>
          [((1 : Int), ("A"), ("B"))]) 1 ("c") none 50 ≠
        (fun (_ : Int) (_ : String) (_ : Option String) (_ : Int) =>
          [((2 : Int), ("C"), ("D"))]) 1 ("c") none 50) →
      ∀ (r1 r2 : Payload) (st1 st2 : CacheState),
        cached_course_search true 10 300 0
          (fun _ _ _ _ => [(1, ("A"), ("B"))]) 1 ("c") none 50 [] = some (r1, st1) →
        cached_course_search true 10 300 1
          (fun _ _ _ _ => [(2, ("C"), ("D"))]) 1 ("c") none 50 st1 = some (r2, st2) →
        r1 ≠ r2)) :=
  ⟨by decide,
    claim_C8_short_bypass 10 300 0 1
      (fun _ _ _ _ => [(1, ("A"), ("B"))]) (fun _ _ _ _ => [(2, ("C"), ("D"))])
      1 ("c") none 50 [] (by decide)⟩

/-- **C10 (counterexample).** A search carrying the *empty-string* faculty
filter (non-absent) does not bypass the cache: `if faculty_code:` is Python
truthiness, so `''` falls through to the cached unfiltered path.  With a live
cached entry for the same (scope, query, limit), the call returns the cached
payload — not a fresh faculty search — and reorders the cache's recency
sequence. -/
theorem claim_C10_counterexample :
    search_courses_for_dropdown collisionDb [] 10 300 1 1 ("10") (some ("")) 10
        [(MemoryCache.generate_key 1 ("10") none 10, [(9, ("X"), ("Y"))], 0),
         (MemoryCache.generate_key 1 ("zz") none 10, [], 0)] =
      some (Except.ok ([(9, ("X"), ("Y"))],
        [(MemoryCache.generate_key 1 ("zz") none 10, [], 0),
         (MemoryCache.generate_key 1 ("10") none 10, [(9, ("X"), ("Y"))], 0)])) ∧
    ([(9, ("X"), ("Y"))] : Payload) ≠
      search_courses_summary_by_faculty_body collisionDb [] 1 ("10") (some ("")) 10 ∧
    ([(MemoryCache.generate_key 1 ("zz") none 10, [], 0),
      (MemoryCache.generate_key 1 ("10") none 10, [(9, ("X"), ("Y"))], 0)] : CacheState) ≠
      [(MemoryCache.generate_key 1 ("10") none 10, [(9, ("X"), ("Y"))], 0),
       (MemoryCache.generate_key 1 ("zz") none 10, [], 0)] := by
  exact ⟨rfl, by decide, by decide⟩

/-- **C10 (amended).** Every search carrying a *non-empty* faculty filter
bypasses the cache completely, on both endpoints: the call returns exactly
what the undecorated faculty search computes and the cache state (entries
and recency order) is unchanged, whatever the cache holds. -/
theorem claim_C10_faculty_bypass (db : List Course) (subs : List Subj) (C : Nat)
    (ttl now uid : Int) (q f : String) (lim : Int) (st : CacheState)
    (h1 : 1 ≤ q.length) (hf : f ≠ "") :
    search_courses_for_dropdown db subs C ttl now uid q (some f) lim st =
      some (Except.ok
        (search_courses_summary_by_faculty_body db subs uid q (some f) lim, st)) ∧
    search_courses_optimized_endpoint db subs C ttl now uid q (some f) lim st =
      some (Except.ok
        (search_courses_summary_by_faculty_optimized_body db subs uid q (some f) lim, st)) := by
  constructor
  · unfold search_courses_for_dropdown
    rw [if_neg (by omega), if_pos (by simp [truthyStr, hf])]
  · unfold search_courses_optimized_endpoint
    rw [if_neg (by omega), if_pos (by simp [truthyStr, hf])]

/-- Witness for C10 (amended) with a populated cache and filter "SC". -/
theorem claim_C10_faculty_bypass_witness :
    1 ≤ ("10").length ∧ ("SC") ≠ ("") ∧
    (search_courses_for_dropdown collisionDb [] 10 300 1 1 ("10") (some ("SC")) 10
        [(MemoryCache.generate_key 1 ("10") none 10, [(9, ("X"), ("Y"))], 0)] =
      some (Except.ok
        (search_courses_summary_by_faculty_body collisionDb [] 1 ("10") (some ("SC")) 10,
         [(MemoryCache.generate_key 1 ("10") none 10, [(9, ("X"), ("Y"))], 0)])) ∧
    search_courses_optimized_endpoint collisionDb [] 10 300 1 1 ("10") (some ("SC")) 10
        [(MemoryCache.generate_key 1 ("10") none 10, [(9, ("X"), ("Y"))], 0)] =
      some (Except.ok
        (search_courses_summary_by_faculty_optimized_body collisionDb [] 1 ("10") (some ("SC")) 10,
         [(MemoryCache.generate_key 1 ("10") none 10, [(9, ("X"), ("Y"))], 0)]))) :=
  ⟨by decide, by decide,
    claim_C10_faculty_bypass collisionDb [] 10 300 1 1 ("10") ("SC") 10
      [(MemoryCache.generate_key 1 ("10") none 10, [(9, ("X"), ("Y"))], 0)]
      (by decide) (by decide)⟩

/-! ## Order facts for the ranking comparison -/

theorem charToNat_inj (a b : Char) (h : a.toNat = b.toNat) : a = b := by
  rw [← Char.ofNat_toNat a, h, Char.ofNat_toNat]

theorem charsLt_cons_iff (a b : Char) (as bs : List Char) :
    charsLt (a :: as) (b :: bs) = true ↔
      (a.toNat < b.toNat ∨ (a.toNat = b.toNat ∧ charsLt as bs = true)) := by
  simp [charsLt]

theorem charsLt_cons_false_iff (a b : Char) (as bs : List Char) :
    charsLt (a :: as) (b :: bs) = false ↔
      (¬ a.toNat < b.toNat ∧ (a.toNat = b.toNat → charsLt as bs = false)) := by
  rw [← Bool.not_eq_true, charsLt_cons_iff]
  constructor
  · intro h
    rw [not_or] at h
    refine ⟨h.1, fun he => ?_⟩
    rcases Bool.eq_false_or_eq_true (charsLt as bs) with hx | hx
    · exact absurd ⟨he, hx⟩ h.2
    · exact hx
  · intro h
    rw [not_or]
    refine ⟨h.1, fun hx => ?_⟩
    exact Bool.noConfusion ((h.2 hx.1).symm.trans hx.2)

theorem charsLt_self : ∀ as : List Char, charsLt as as = false := by
  intro as
  induction as with
  | nil => rfl
  | cons a as' ih =>
    rw [charsLt_cons_false_iff]
    exact ⟨by omega, fun _ => ih⟩

theorem charsLt_trans : ∀ as bs cs : List Char,
    charsLt as bs = true → charsLt bs cs = true → charsLt as cs = true := by
  intro as
  induction as with
  | nil =>
    intro bs cs h1 h2
    cases bs with
    | nil => exact Bool.noConfusion h1
    | cons b bs' =>
      cases cs with
      | nil => exact Bool.noConfusion h2
      | cons c cs' => rfl
  | cons a as' ih =>
    intro bs cs h1 h2
    cases bs with
    | nil => exact Bool.noConfusion h1
    | cons b bs' =>
      cases cs with
      | nil => exact Bool.noConfusion h2
      | cons c cs' =>
        rw [charsLt_cons_iff] at h1 h2 ⊢
        rcases h1 with h1 | ⟨h1e, h1r⟩
        · rcases h2 with h2 | ⟨h2e, h2r⟩
          · left; omega
          · left; omega
        · rcases h2 with h2 | ⟨h2e, h2r⟩
          · left; omega
          · right; exact ⟨by omega, ih bs' cs' h1r h2r⟩

theorem charsLt_both_false : ∀ as bs : List Char,
    charsLt as bs = false → charsLt bs as = false → as = bs := by
  intro as
  induction as with
  | nil =>
    intro bs h1 _
    cases bs with
    | nil => rfl
    | cons b bs' => exact Bool.noConfusion h1
  | cons a as' ih =>
    intro bs h1 h2
    cases bs with
    | nil => exact Bool.noConfusion h2
    | cons b bs' =>
      rw [charsLt_cons_false_iff] at h1 h2
      have hab : a.toNat = b.toNat := by omega
      rw [charToNat_inj a b hab, ih bs' (h1.2 hab) (h2.2 hab.symm)]

theorem charsLt_asymm : ∀ as bs : List Char,
    charsLt as bs = true → charsLt bs as = false := by
  intro as bs h
  rcases Bool.eq_false_or_eq_true (charsLt bs as) with h2 | h2
  · exfalso
    have := charsLt_trans as bs as h h2
    rw [charsLt_self] at this
    exact Bool.noConfusion this
  · exact h2

theorem stringDataEq (s t : String) (h : s.data = t.data) : s = t := by
  cases s; cases t; exact congrArg String.mk h

theorem strLt_self (s : String) : strLt s s = false := charsLt_self s.data

theorem strLt_trans (s t u : String) (h1 : strLt s t = true)
    (h2 : strLt t u = true) : strLt s u = true :=
  charsLt_trans s.data t.data u.data h1 h2

theorem strLt_both_false (s t : String) (h1 : strLt s t = false)
    (h2 : strLt t s = false) : s = t :=
  stringDataEq s t (charsLt_both_false s.data t.data h1 h2)

theorem strLt_asymm (s t : String) (h : strLt s t = true) : strLt t s = false :=
  charsLt_asymm s.data t.data h

theorem rankLE_eq_true_iff (q : String) (a b : Course) :
    rankLE q a b = true ↔
      (relevanceCase q a < relevanceCase q b ∨
       (relevanceCase q a = relevanceCase q b ∧
        (strLt a.code b.code = true ∨
         (a.code = b.code ∧ strLt b.name a.name = false)))) := by
  unfold rankLE
  split_ifs with h1 h2
  · simp [h1]
  · push_neg at h1
    simp [h1, h2]
  · push_neg at h1 h2
    simp [h1, h2, strLt_self, Bool.not_eq_true']

theorem rankRel_total (q : String) (a b : Course) : rankRel q a b ∨ rankRel q b a := by
  unfold rankRel
  rw [rankLE_eq_true_iff, rankLE_eq_true_iff]
  rcases Nat.lt_trichotomy (relevanceCase q a) (relevanceCase q b) with h | h | h
  · left; left; exact h
  · by_cases hc : a.code = b.code
    · rcases Bool.eq_false_or_eq_true (strLt b.name a.name) with hn | hn
      · right; right
        exact ⟨h.symm, Or.inr ⟨hc.symm, strLt_asymm b.name a.name hn⟩⟩
      · left; right; exact ⟨h, Or.inr ⟨hc, hn⟩⟩
    · rcases Bool.eq_false_or_eq_true (strLt a.code b.code) with hsc | hsc
      · left; right; exact ⟨h, Or.inl hsc⟩
      · rcases Bool.eq_false_or_eq_true (strLt b.code a.code) with hsc2 | hsc2
        · right; right; exact ⟨h.symm, Or.inl hsc2⟩
        · exact absurd (strLt_both_false a.code b.code hsc hsc2) hc
  · right; left; exact h

theorem rankRel_trans (q : String) (a b c : Course)
    (h1 : rankRel q a b) (h2 : rankRel q b c) : rankRel q a c := by
  unfold rankRel at h1 h2 ⊢
  rw [rankLE_eq_true_iff] at h1 h2 ⊢
  rcases h1 with h1 | ⟨h1e, h1r⟩
  · rcases h2 with h2 | ⟨h2e, h2r⟩
    · left; omega
    · left; omega
  · rcases h2 with h2 | ⟨h2e, h2r⟩
    · left; omega
    · right
      refine ⟨by omega, ?_⟩
      rcases h1r with h1c | ⟨h1ce, h1n⟩
      · rcases h2r with h2c | ⟨h2ce, h2n⟩
        · left; exact strLt_trans _ _ _ h1c h2c
        · left; rw [← h2ce]; exact h1c
      · rcases h2r with h2c | ⟨h2ce, h2n⟩
        · left; rw [h1ce]; exact h2c
        · right
          refine ⟨h1ce.trans h2ce, ?_⟩
          rcases Bool.eq_false_or_eq_true (strLt c.name a.name) with han | han
          · exfalso
            rcases Bool.eq_false_or_eq_true (strLt a.name b.name) with habn | habn
            · have := strLt_trans c.name a.name b.name han habn
              exact Bool.noConfusion (this.symm.trans h2n)
            · have heq := strLt_both_false a.name b.name habn h1n
              rw [← heq] at h2n
              exact Bool.noConfusion (han.symm.trans h2n)
          · exact han

/-! ## Claim C5: ranked output order and post-rank truncation -/

/-- **C5 (counterexample).** The spec's `ExactCode` tier is "code equals the
query, case-insensitive", but the source's tier 1 is the case-sensitive test
`code == query.upper()`.  With a lower-case stored code `cmput101` and query
"cmput101", the code assigns tier 2 to `cmput101` (the spec assigns tier 1)
and the output places the tier-2 row `CMPUT1011` first — not sorted by the
spec's (MatchTier, code, name) key. -/
theorem claim_C5_counterexample :
    search_courses_summary_optimized_body mixedCaseDb 1 ("cmput101") 10 =
      [(2, ("CMPUT1011"), ("N2")), (1, ("cmput101"), ("N1"))] ∧
    specMatchTier ("cmput101") (2, ("CMPUT1011"), ("N2")) = 2 ∧
    specMatchTier ("cmput101") (1, ("cmput101"), ("N1")) = 1 ∧
    ¬ List.Sorted (fun x y => specRowLE ("cmput101") x y = true)
        (search_courses_summary_optimized_body mixedCaseDb 1 ("cmput101") 10) := by
  refine ⟨rfl, rfl, rfl, fun hs => ?_⟩
  have hs' : List.Sorted (fun x y => specRowLE ("cmput101") x y = true)
      [((2 : Int), ("CMPUT1011"), ("N2")), ((1 : Int), ("cmput101"), ("N1"))] := hs
  have h01 := List.rel_of_sorted_cons hs' ((1 : Int), ("cmput101"), ("N1")) (by simp)
  exact absurd h01 (by decide)

/-- **C5 (amended).** For every input result set and nonempty query, the
ranked search output is the prefix (of the requested length) of a sorted
permutation of the *entire* filtered result set — sorted ascending by the
source's relevance key (tier where `1` is the case-sensitive
`code == query.upper()` match, then code, then name) — i.e. ranking is
applied to the full result set and truncation to the limit happens only
after ranking. -/
theorem claim_C5_ranked_order (db : List Course) (uid : Int) (q : String)
    (lim : Int) (hq : q ≠ ("")) :
    ∃ L : List Course,
      L.Perm (db.filter (optimizedCond uid q)) ∧
      L.Sorted (rankRel q) ∧
      search_courses_summary_optimized_body db uid q lim = (L.take lim.toNat).map rowOf := by
  refine ⟨List.insertionSort (rankRel q) (db.filter (optimizedCond uid q)),
    List.perm_insertionSort _ _, ?_, rfl⟩
  haveI : IsTotal Course (rankRel q) := ⟨rankRel_total q⟩
  haveI : IsTrans Course (rankRel q) := ⟨fun a b c => rankRel_trans q a b c⟩
  exact List.sorted_insertionSort _ _

/-- Witness for C5 (amended) on the two-course database with query "10". -/
theorem claim_C5_ranked_order_witness :
    ("10" : String) ≠ ("") ∧
    ∃ L : List Course,
      L.Perm (collisionDb.filter (optimizedCond 1 ("10"))) ∧
      L.Sorted (rankRel ("10")) ∧
      search_courses_summary_optimized_body collisionDb 1 ("10") 10 =
        (L.take ((10 : Int)).toNat).map rowOf :=
  ⟨by decide, claim_C5_ranked_order collisionDb 1 ("10") 10 (by decide)⟩

/-! ## The serialization decoder inverts the escaping -/

theorem consumeStr_quote (rest : List Char) : consumeStr ('"' :: rest) = some ([], rest) := by
  rw [consumeStr.eq_def]
  dsimp only
  rw [if_pos rfl]

theorem consumeStr_plain (c : Char) (rest : List Char) (h1 : ¬ c = '"') (h2 : ¬ c = '\\') :
    consumeStr (c :: rest) =
      match consumeStr rest with
      | some (s, r) => some (c :: s, r)
      | none => none := by
  rw [consumeStr.eq_def]
  dsimp only
  rw [if_neg h1, if_neg h2]

theorem consumeStr_simple (e : Char) (rest : List Char) (he : ¬ e = 'u') :
    consumeStr ('\\' :: e :: rest) =
      match consumeStr rest with
      | some (s, r) => some (unescSimple e :: s, r)
      | none => none := by
  rw [consumeStr.eq_def]
  dsimp only
  rw [if_neg (show ¬('\\' : Char) = '"' by decide), if_pos rfl, if_neg he]

theorem consumeStr_hex (d1 d2 d3 d4 : Char) (rest : List Char)
    (hns : ¬(55296 ≤ ((hexVal d1 * 16 + hexVal d2) * 16 + hexVal d3) * 16 + hexVal d4 ∧
      ((hexVal d1 * 16 + hexVal d2) * 16 + hexVal d3) * 16 + hexVal d4 < 56320)) :
    consumeStr ('\\' :: 'u' :: d1 :: d2 :: d3 :: d4 :: rest) =
      match consumeStr rest with
      | some (s, r) =>
        some (Char.ofNat (((hexVal d1 * 16 + hexVal d2) * 16 + hexVal d3) * 16 + hexVal d4) :: s, r)
      | none => none := by
  rw [consumeStr.eq_def]
  dsimp only
  rw [if_neg (show ¬('\\' : Char) = '"' by decide), if_pos rfl, if_pos rfl, if_neg hns]

theorem consumeStr_surrogate (d1 d2 d3 d4 g1 g2 g3 g4 : Char) (rest : List Char)
    (hs : 55296 ≤ ((hexVal d1 * 16 + hexVal d2) * 16 + hexVal d3) * 16 + hexVal d4 ∧
      ((hexVal d1 * 16 + hexVal d2) * 16 + hexVal d3) * 16 + hexVal d4 < 56320) :
    consumeStr ('\\' :: 'u' :: d1 :: d2 :: d3 :: d4 :: '\\' :: 'u' :: g1 :: g2 :: g3 :: g4 :: rest) =
      match consumeStr rest with
      | some (s, r) =>
        some (Char.ofNat (65536 +
          (((hexVal d1 * 16 + hexVal d2) * 16 + hexVal d3) * 16 + hexVal d4 - 55296) * 1024 +
          (((hexVal g1 * 16 + hexVal g2) * 16 + hexVal g3) * 16 + hexVal g4 - 56320)) :: s, r)
      | none => none := by
  rw [consumeStr.eq_def]
  dsimp only
  rw [if_neg (show ¬('\\' : Char) = '"' by decide), if_pos rfl, if_pos rfl, if_pos hs,
    if_pos ⟨rfl, rfl⟩]

theorem hexVal_hexDigitChar (k : Nat) (hk : k < 16) : hexVal (hexDigitChar k) = k := by
  interval_cases k <;> rfl

theorem hex4_val (n : Nat) (h : n < 65536) :
    ((hexVal (hexDigitChar (n / 4096 % 16)) * 16 + hexVal (hexDigitChar (n / 256 % 16))) * 16 +
      hexVal (hexDigitChar (n / 16 % 16))) * 16 + hexVal (hexDigitChar (n % 16)) = n := by
  rw [hexVal_hexDigitChar _ (by omega), hexVal_hexDigitChar _ (by omega),
    hexVal_hexDigitChar _ (by omega), hexVal_hexDigitChar _ (by omega)]
  omega

/-- The scalar-value bounds every `Char` satisfies. -/
theorem char_toNat_valid (c : Char) :
    c.toNat < 55296 ∨ (57343 < c.toNat ∧ c.toNat < 1114112) := c.valid

set_option maxHeartbeats 3000000 in
/-- Round trip: the decoder undoes `escChars` up to the closing quote. -/
theorem consumeStr_escChars : ∀ (s rest : List Char),
    consumeStr (escChars s ++ '"' :: rest) = some (s, rest) := by
  intro s
  induction s with
  | nil =>
    intro rest
    rw [show escChars [] = [] from rfl, List.nil_append, consumeStr_quote]
  | cons c cs ih =>
    intro rest
    rw [show escChars (c :: cs) = escChar c ++ escChars cs from rfl, List.append_assoc]
    unfold escChar
    split_ifs with h1 h2 h3 h4 h5 h6 h7 h8 h9 h10
    · subst h1
      rw [show (['\\', '"'] : List Char) ++ (escChars cs ++ '"' :: rest) =
        '\\' :: '"' :: (escChars cs ++ '"' :: rest) from rfl]
      rw [consumeStr_simple _ _ (by decide), ih]
      rfl
    · subst h2
      rw [show (['\\', '\\'] : List Char) ++ (escChars cs ++ '"' :: rest) =
        '\\' :: '\\' :: (escChars cs ++ '"' :: rest) from rfl]
      rw [consumeStr_simple _ _ (by decide), ih]
      rfl
    · subst h3
      rw [show (['\\', 'n'] : List Char) ++ (escChars cs ++ '"' :: rest) =
        '\\' :: 'n' :: (escChars cs ++ '"' :: rest) from rfl]
      rw [consumeStr_simple _ _ (by decide), ih]
      rfl
    · subst h4
      rw [show (['\\', 'r'] : List Char) ++ (escChars cs ++ '"' :: rest) =
        '\\' :: 'r' :: (escChars cs ++ '"' :: rest) from rfl]
      rw [consumeStr_simple _ _ (by decide), ih]
      rfl
    · subst h5
      rw [show (['\\', 't'] : List Char) ++ (escChars cs ++ '"' :: rest) =
        '\\' :: 't' :: (escChars cs ++ '"' :: rest) from rfl]
      rw [consumeStr_simple _ _ (by decide), ih]
      rfl
    · subst h6
      rw [show (['\\', 'b'] : List Char) ++ (escChars cs ++ '"' :: rest) =
        '\\' :: 'b' :: (escChars cs ++ '"' :: rest) from rfl]
      rw [consumeStr_simple _ _ (by decide), ih]
      rfl
    · subst h7
      rw [show (['\\', 'f'] : List Char) ++ (escChars cs ++ '"' :: rest) =
        '\\' :: 'f' :: (escChars cs ++ '"' :: rest) from rfl]
      rw [consumeStr_simple _ _ (by decide), ih]
      rfl
    · simp only [hex4, List.cons_append, List.nil_append]
      have hval := hex4_val c.toNat (by omega)
      rw [consumeStr_hex _ _ _ _ _ (by rw [hval]; omega), ih]
      dsimp only
      rw [hval, Char.ofNat_toNat]
    · rw [show ([c] : List Char) ++ (escChars cs ++ '"' :: rest) =
        c :: (escChars cs ++ '"' :: rest) from rfl]
      rw [consumeStr_plain c _ h1 h2, ih]
    · simp only [hex4, List.cons_append, List.nil_append]
      have hval := hex4_val c.toNat (by omega)
      have hvalid := char_toNat_valid c
      rw [consumeStr_hex _ _ _ _ _ (by rw [hval]; omega), ih]
      dsimp only
      rw [hval, Char.ofNat_toNat]
    · have hvalid := char_toNat_valid c
      have hbound : c.toNat < 1114112 := by omega
      have hhi : 55296 + (c.toNat - 65536) / 1024 < 65536 := by omega
      have hlo : 56320 + (c.toNat - 65536) % 1024 < 65536 := by omega
      simp only [hex4, List.cons_append, List.nil_append, List.append_assoc]
      have hvhi := hex4_val (55296 + (c.toNat - 65536) / 1024) hhi
      have hvlo := hex4_val (56320 + (c.toNat - 65536) % 1024) hlo
      rw [consumeStr_surrogate _ _ _ _ _ _ _ _ _ (by rw [hvhi]; omega), ih]
      dsimp only
      rw [hvhi, hvlo]
      rw [show 65536 + (55296 + (c.toNat - 65536) / 1024 - 55296) * 1024 +
        (56320 + (c.toNat - 65536) % 1024 - 56320) = c.toNat by omega]
      rw [Char.ofNat_toNat]

/-! ## Decimal rendering facts -/

theorem digitVal_digitChar (k : Nat) (hk : k < 10) : digitVal (digitChar k) = k := by
  interval_cases k <;> rfl

theorem charsVal_digitChar (k : Nat) (hk : k < 10) : charsVal [digitChar k] = k := by
  show 0 * 10 + digitVal (digitChar k) = k
  rw [digitVal_digitChar k hk]
  omega

theorem charsVal_append_one (l : List Char) (c : Char) :
    charsVal (l ++ [c]) = charsVal l * 10 + digitVal c := by
  unfold charsVal
  rw [List.foldl_append]
  rfl

theorem charsVal_natChars : ∀ (fuel n : Nat), n < 10 ^ fuel →
    charsVal (natChars fuel n) = n := by
  intro fuel
  induction fuel with
  | zero =>
    intro n h
    have h0 : n = 0 := by simpa using h
    subst h0
    rfl
  | succ f ih =>
    intro n h
    rw [natChars]
    split_ifs with h10
    · exact charsVal_digitChar n h10
    · rw [charsVal_append_one, digitVal_digitChar _ (Nat.mod_lt _ (by omega)),
        ih (n / 10) ((Nat.div_lt_iff_lt_mul (by omega)).mpr (by rw [← pow_succ]; exact h))]
      omega

theorem natStr_val (n : Nat) : charsVal (natStr n) = n := by
  unfold natStr
  exact charsVal_natChars (n + 1) n
    (lt_of_lt_of_le (Nat.lt_pow_self (by omega) n)
      (Nat.pow_le_pow_right (by omega) (by omega)))

theorem natStr_inj (m n : Nat) (h : natStr m = natStr n) : m = n := by
  have hm := natStr_val m
  rw [h, natStr_val] at hm
  exact hm.symm

theorem isDigitCh_digitChar (k : Nat) : isDigitCh (digitChar k) = true := by
  unfold digitChar
  split <;> rfl

theorem natChars_digits : ∀ (fuel n : Nat), ∀ c ∈ natChars fuel n, isDigitCh c = true := by
  intro fuel
  induction fuel with
  | zero => intro n c hc; simp [natChars] at hc
  | succ f ih =>
    intro n c hc
    rw [natChars] at hc
    split_ifs at hc with h10
    · rw [List.mem_singleton] at hc
      subst hc
      exact isDigitCh_digitChar n
    · rcases List.mem_append.mp hc with hc | hc
      · exact ih (n / 10) c hc
      · rw [List.mem_singleton] at hc
        subst hc
        exact isDigitCh_digitChar (n % 10)

theorem natStr_digits (n : Nat) (c : Char) (h : c ∈ natStr n) : isDigitCh c = true :=
  natChars_digits (n + 1) n c h

theorem comma_not_mem_intStr (i : Int) : (',') ∉ intStr i := by
  cases i with
  | ofNat n =>
    intro h
    exact absurd (natStr_digits n (',') h) (by decide)
  | negSucc m =>
    intro h
    rcases List.mem_cons.mp h with h | h
    · exact absurd h (by decide)
    · exact absurd (natStr_digits (m + 1) (',') h) (by decide)

theorem rbrace_not_mem_intStr (i : Int) : ('\x7d') ∉ intStr i := by
  cases i with
  | ofNat n =>
    intro h
    exact absurd (natStr_digits n ('\x7d') h) (by decide)
  | negSucc m =>
    intro h
    rcases List.mem_cons.mp h with h | h
    · exact absurd h (by decide)
    · exact absurd (natStr_digits (m + 1) ('\x7d') h) (by decide)

theorem intStr_inj (i j : Int) (h : intStr i = intStr j) : i = j := by
  cases i with
  | ofNat m =>
    cases j with
    | ofNat n =>
      simp only [intStr] at h
      rw [natStr_inj m n h]
    | negSucc k =>
      exfalso
      simp only [intStr] at h
      have hm : ('-') ∈ natStr m := by rw [h]; exact List.mem_cons_self _ _
      exact absurd (natStr_digits m ('-') hm) (by decide)
  | negSucc l =>
    cases j with
    | ofNat n =>
      exfalso
      simp only [intStr] at h
      have hm : ('-') ∈ natStr n := by rw [← h]; exact List.mem_cons_self _ _
      exact absurd (natStr_digits n ('-') hm) (by decide)
    | negSucc k =>
      simp only [intStr, List.cons.injEq, true_and] at h
      have hlk := natStr_inj (l + 1) (k + 1) h
      have : l = k := by omega
      rw [this]

/-! ## Framing lemmas for the serialized key -/

theorem escChars_quote_frame (s1 s2 r1 r2 : List Char)
    (h : escChars s1 ++ '"' :: r1 = escChars s2 ++ '"' :: r2) : s1 = s2 ∧ r1 = r2 := by
  have e1 := consumeStr_escChars s1 r1
  rw [h, consumeStr_escChars s2 r2] at e1
  have e2 := Option.some.inj e1
  exact ⟨congrArg Prod.fst e2 |>.symm, congrArg Prod.snd e2 |>.symm⟩

theorem split_at_marker (ch : Char) : ∀ (a1 a2 b1 b2 : List Char),
    ch ∉ a1 → ch ∉ a2 → a1 ++ ch :: b1 = a2 ++ ch :: b2 → a1 = a2 ∧ b1 = b2 := by
  intro a1
  induction a1 with
  | nil =>
    intro a2 b1 b2 _ h2 h
    cases a2 with
    | nil => simpa using h
    | cons y a2' =>
      simp only [List.nil_append, List.cons_append, List.cons.injEq] at h
      exfalso
      apply h2
      rw [← h.1]
      exact List.mem_cons_self _ _
  | cons x a1' ih =>
    intro a2 b1 b2 h1 h2 h
    cases a2 with
    | nil =>
      simp only [List.nil_append, List.cons_append, List.cons.injEq] at h
      exfalso
      apply h1
      rw [h.1]
      exact List.mem_cons_self _ _
    | cons y a2' =>
      simp only [List.cons_append, List.cons.injEq] at h
      have h1' : ch ∉ a1' := fun hm => h1 (List.mem_cons_of_mem x hm)
      have h2' : ch ∉ a2' := fun hm => h2 (List.mem_cons_of_mem y hm)
      obtain ⟨ha, hb⟩ := ih a2' b1 b2 h1' h2' h.2
      exact ⟨by rw [h.1, ha], hb⟩

/-! ## Normalization facts for the key builder -/

theorem charToNat_ofNat_valid (n : Nat) (h : n.isValidChar) : (Char.ofNat n).toNat = n := by
  simp only [Char.ofNat, dif_pos h]
  rfl

theorem asciiLower_asciiUpper (c : Char) :
    asciiLower (asciiUpper c) = asciiLower (asciiLower c) := by
  by_cases h1 : 97 ≤ c.toNat ∧ c.toNat ≤ 122
  · have hv : Nat.isValidChar (c.toNat - 32) := Or.inl (by omega)
    have ht := charToNat_ofNat_valid (c.toNat - 32) hv
    rw [show asciiUpper c = Char.ofNat (c.toNat - 32) from by
      unfold asciiUpper; rw [if_pos h1]]
    rw [show asciiLower c = c from by
      unfold asciiLower; rw [if_neg (by omega)]]
    rw [show asciiLower (Char.ofNat (c.toNat - 32)) = Char.ofNat (c.toNat - 32 + 32) from by
      unfold asciiLower; rw [ht, if_pos (by omega)]]
    rw [show c.toNat - 32 + 32 = c.toNat by omega, Char.ofNat_toNat]
    rw [show asciiLower c = c from by
      unfold asciiLower; rw [if_neg (by omega)]]
  · by_cases h2 : 65 ≤ c.toNat ∧ c.toNat ≤ 90
    · have hv : Nat.isValidChar (c.toNat + 32) := Or.inl (by omega)
      have ht := charToNat_ofNat_valid (c.toNat + 32) hv
      rw [show asciiUpper c = c from by
        unfold asciiUpper; rw [if_neg (by omega)]]
      rw [show asciiLower c = Char.ofNat (c.toNat + 32) from by
        unfold asciiLower; rw [if_pos h2]]
      rw [show asciiLower (Char.ofNat (c.toNat + 32)) = Char.ofNat (c.toNat + 32) from by
        unfold asciiLower; rw [ht, if_neg (by omega)]]
    · rw [show asciiUpper c = c from by
        unfold asciiUpper; rw [if_neg (by omega)]]
      rw [show asciiLower c = c from by
        unfold asciiLower; rw [if_neg (by omega)]]
      rw [show asciiLower c = c from by
        unfold asciiLower; rw [if_neg (by omega)]]

theorem stripChars_cons_space (l : List Char) : stripChars (' ' :: l) = stripChars l := by
  unfold stripChars
  rw [List.dropWhile_cons_of_pos (by rfl)]

theorem stripChars_append_space (l : List Char) : stripChars (l ++ [' ']) = stripChars l := by
  unfold stripChars
  rw [List.dropWhile_append]
  split_ifs with h
  · rw [List.isEmpty_iff] at h
    rw [h]
    rfl
  · rw [List.reverse_append, show ([' '] : List Char).reverse = [' '] from rfl,
      List.singleton_append, List.dropWhile_cons_of_pos (by rfl)]

theorem normQuery_pad (q : String) :
    normQuery ⟨' ' :: q.data ++ [' ']⟩ = normQuery q := by
  unfold normQuery pyStrip pyLower
  apply stringDataEq
  show stripChars ((' ' :: q.data ++ [' ']).map asciiLower) = stripChars (q.data.map asciiLower)
  rw [List.map_append, List.map_cons, show asciiLower (' ') = ' ' from rfl,
    show ([' '] : List Char).map asciiLower = [' '] from rfl, List.cons_append,
    stripChars_cons_space, stripChars_append_space]

theorem normQuery_case (q : String) :
    normQuery (pyUpper q) = normQuery (pyLower q) := by
  unfold normQuery pyStrip pyLower pyUpper
  apply stringDataEq
  show stripChars ((q.data.map asciiUpper).map asciiLower) =
    stripChars ((q.data.map asciiLower).map asciiLower)
  rw [List.map_map, List.map_map]
  congr 2
  funext c
  exact asciiLower_asciiUpper c

/-! ## Injectivity of the serialized key tuple -/

theorem keyChars_inj (u1 u2 : Int) (q1 q2 : String) (f1 f2 : Option String) (l1 l2 : Int)
    (h : keyChars u1 q1 f1 l1 = keyChars u2 q2 f2 l2) :
    u1 = u2 ∧ normQuery q1 = normQuery q2 ∧ f1 = f2 ∧ l1 = l2 := by
  unfold keyChars at h
  rcases f1 with _ | s1 <;> rcases f2 with _ | s2
  · simp only [jsonOptChars, jsonStrChars, List.append_assoc, List.cons_append,
      List.nil_append, List.cons.injEq, eq_self_iff_true, true_and] at h
    obtain ⟨hl, h⟩ := split_at_marker (',') _ _ _ _
      (comma_not_mem_intStr l1) (comma_not_mem_intStr l2) h
    simp only [List.cons.injEq, eq_self_iff_true, true_and] at h
    obtain ⟨hq, h⟩ := escChars_quote_frame _ _ _ _ h
    simp only [List.cons.injEq, eq_self_iff_true, true_and] at h
    obtain ⟨hu, -⟩ := split_at_marker ('\x7d') _ _ _ _
      (rbrace_not_mem_intStr u1) (rbrace_not_mem_intStr u2) h
    exact ⟨intStr_inj _ _ hu, stringDataEq _ _ hq, rfl, intStr_inj _ _ hl⟩
  · exfalso
    simp only [jsonOptChars, jsonStrChars, List.append_assoc, List.cons_append,
      List.nil_append, List.cons.injEq, eq_self_iff_true, true_and] at h
    exact absurd h.1 (by decide)
  · exfalso
    simp only [jsonOptChars, jsonStrChars, List.append_assoc, List.cons_append,
      List.nil_append, List.cons.injEq, eq_self_iff_true, true_and] at h
    exact absurd h.1 (by decide)
  · simp only [jsonOptChars, jsonStrChars, List.append_assoc, List.cons_append,
      List.nil_append, List.cons.injEq, eq_self_iff_true, true_and] at h
    obtain ⟨hs, h⟩ := escChars_quote_frame _ _ _ _ h
    simp only [List.cons.injEq, eq_self_iff_true, true_and] at h
    obtain ⟨hl, h⟩ := split_at_marker (',') _ _ _ _
      (comma_not_mem_intStr l1) (comma_not_mem_intStr l2) h
    simp only [List.cons.injEq, eq_self_iff_true, true_and] at h
    obtain ⟨hq, h⟩ := escChars_quote_frame _ _ _ _ h
    simp only [List.cons.injEq, eq_self_iff_true, true_and] at h
    obtain ⟨hu, -⟩ := split_at_marker ('\x7d') _ _ _ _
      (rbrace_not_mem_intStr u1) (rbrace_not_mem_intStr u2) h
    exact ⟨intStr_inj _ _ hu, stringDataEq _ _ hq,
      congrArg some (stringDataEq _ _ hs), intStr_inj _ _ hl⟩

/-! ## Claim C6: key builder identity -/

theorem generate_key_eq_iff (u1 u2 : Int) (q1 q2 : String) (f1 f2 : Option String)
    (l1 l2 : Int) :
    MemoryCache.generate_key u1 q1 f1 l1 = MemoryCache.generate_key u2 q2 f2 l2 ↔
      (u1 = u2 ∧ normQuery q1 = normQuery q2 ∧ f1 = f2 ∧ l1 = l2) := by
  constructor
  · intro h
    have hk : keyChars u1 q1 f1 l1 = keyChars u2 q2 f2 l2 := congrArg String.data h
    exact keyChars_inj _ _ _ _ _ _ _ _ hk
  · rintro ⟨hu, hq, hf, hl⟩
    unfold MemoryCache.generate_key keyChars
    rw [hu, hq, hf, hl]

/-- **C6.** The key builder is a pure function whose key identity is exactly
the tuple (scope, normalized query, filter, limit): two keys are equal iff
the university id, the normalized (lower-cased, stripped) query, the
faculty-code filter, and the limit all agree — so identical tuples share a
key and any difference in any field separates keys; query identity is case-
and trim-insensitive (upper/lower case and surrounding spaces do not change
the key); and an absent filter and an empty-string filter yield distinct
keys (`null` versus `""` in the serialized tuple).  Key equality is settled
at the serialized `key_string` layer, the MD5 digest being the spec's
injective-encoding idealization. -/
theorem claim_C6_key_identity :
    (∀ (u1 u2 : Int) (q1 q2 : String) (f1 f2 : Option String) (l1 l2 : Int),
      MemoryCache.generate_key u1 q1 f1 l1 = MemoryCache.generate_key u2 q2 f2 l2 ↔
        (u1 = u2 ∧ normQuery q1 = normQuery q2 ∧ f1 = f2 ∧ l1 = l2)) ∧
    (∀ (u : Int) (q : String) (f : Option String) (l : Int),
      MemoryCache.generate_key u (pyUpper q) f l =
        MemoryCache.generate_key u (pyLower q) f l ∧
      MemoryCache.generate_key u ⟨' ' :: q.data ++ [' ']⟩ f l =
        MemoryCache.generate_key u q f l) ∧
    (∀ (u : Int) (q : String) (l : Int),
      MemoryCache.generate_key u q none l ≠
        MemoryCache.generate_key u q (some ("")) l) := by
  refine ⟨generate_key_eq_iff, ?_, ?_⟩
  · intro u q f l
    constructor
    · exact (generate_key_eq_iff u u (pyUpper q) (pyLower q) f f l l).mpr
        ⟨rfl, normQuery_case q, rfl, rfl⟩
    · exact (generate_key_eq_iff u u ⟨' ' :: q.data ++ [' ']⟩ q f f l l).mpr
        ⟨rfl, normQuery_pad q, rfl, rfl⟩
  · intro u q l h
    have hf := ((generate_key_eq_iff u u q q none (some ("")) l l).mp h).2.2.1
    exact Option.noConfusion hf
